import Mathlib

set_option maxRecDepth 40000

/-!
Shallow embedding of the StellarCade price-prediction contract
(contracts/price-prediction/src/lib.rs) together with proofs about its
round lifecycle, settlement arithmetic and claim processing.

Modelling conventions:
* Rust `i128` values are `Int`; every `checked_*` operation the contract
  performs is modelled by an explicit range-checked operation, and Rust
  division (truncation toward zero) is `Int.tdiv`.
* Rust `u64` values (round ids, timestamps) and `u32` values (directions,
  outcomes) are `Nat`.
* External adapters are modelled as explicit inputs and recorded effects:
  the oracle price is a parameter of `open_market` / `settle_round`;
  token transfers and persistent-storage writes are recorded — in the
  order the contract performs them — in an effect trace, and
  `require_auth` always succeeds (authorization is external).
* Contract storage is a configuration record (the `DataKey::Admin`,
  `MinWager`, `MaxWager`, `HouseEdgeBps` instance entries, all set
  together by `init`; the admin, token and oracle addresses do not
  influence the modelled logic) plus association lists for
  `DataKey::Round` and `DataKey::Bet` entries.
-/

namespace PricePrediction

/-- Largest `i128` value. -/
def I128_MAX : Int := 2 ^ 127 - 1

/-- Smallest `i128` value. -/
def I128_MIN : Int := -(2 ^ 127)

/-- Rust `i128::checked_add`. -/
def checkedAdd (a b : Int) : Option Int :=
  if I128_MIN ≤ a + b ∧ a + b ≤ I128_MAX then some (a + b) else none

/-- Rust `i128::checked_sub`. -/
def checkedSub (a b : Int) : Option Int :=
  if I128_MIN ≤ a - b ∧ a - b ≤ I128_MAX then some (a - b) else none

/-- Rust `i128::checked_mul`. -/
def checkedMul (a b : Int) : Option Int :=
  if I128_MIN ≤ a * b ∧ a * b ≤ I128_MAX then some (a * b) else none

/-- Rust `i128::checked_div`: `None` on division by zero or on the single
overflowing case `MIN / -1`; otherwise truncated (toward zero) division. -/
def checkedDiv (a b : Int) : Option Int :=
  if b = 0 then none
  else if a = I128_MIN ∧ b = -1 then none
  else some (a.tdiv b)

/-- Constant `BASIS_POINTS_DIVISOR` (line 37). -/
def BASIS_POINTS_DIVISOR : Int := 10000

/-- Constant `DIRECTION_UP` (line 39). -/
def DIRECTION_UP : Nat := 0

/-- Constant `DIRECTION_DOWN` (line 40). -/
def DIRECTION_DOWN : Nat := 1

/-- Constant `OUTCOME_UP` (line 42). -/
def OUTCOME_UP : Nat := 0

/-- Constant `OUTCOME_DOWN` (line 43). -/
def OUTCOME_DOWN : Nat := 1

/-- Constant `OUTCOME_FLAT` (line 44). -/
def OUTCOME_FLAT : Nat := 2

/-- Players are identified by their address, modelled as a number. -/
abbrev Player := Nat

/-- Endpoints of a token transfer: the contract's escrow account or a
player's account. -/
inductive Account : Type
  | contract : Account
  | player : Player → Account
deriving DecidableEq, Repr

/-- The contract's error enum (lines 62-83). -/
inductive Error : Type
  | AlreadyInitialized
  | NotInitialized
  | NotAuthorized
  | InvalidAmount
  | InvalidDirection
  | RoundAlreadyExists
  | RoundNotFound
  | AlreadySettled
  | NotSettled
  | RoundNotClosed
  | RoundClosed
  | BetAlreadyPlaced
  | BetNotFound
  | AlreadyClaimed
  | NoPayout
  | WagerTooLow
  | WagerTooHigh
  | Overflow
  | InvalidCloseTime
  | InvalidPrice
deriving DecidableEq, Repr

/-- Instance-storage configuration written by `init` (lines 201-206):
`MinWager`, `MaxWager`, `HouseEdgeBps`.  The admin, oracle and token
addresses are also written there but play no role in the modelled logic. -/
structure Config : Type where
  min_wager : Int
  max_wager : Int
  house_edge_bps : Int
deriving DecidableEq, Repr

/-- Storage type `RoundData` (lines 111-123). -/
structure RoundData : Type where
  asset : Nat
  open_price : Int
  close_price : Int
  close_time : Nat
  total_up : Int
  total_down : Int
  settled : Bool
  outcome : Nat
  is_push : Bool
  net_pool : Int
  winning_total : Int
deriving DecidableEq, Repr

/-- Storage type `BetData` (lines 127-131). -/
structure BetData : Type where
  direction : Nat
  wager : Int
  claimed : Bool
deriving DecidableEq, Repr

/-- Association-list lookup for the persistent stores. -/
def find? {κ α : Type} [DecidableEq κ] (k : κ) : List (κ × α) → Option α
  | [] => none
  | (k', v) :: rest => if k' = k then some v else find? k rest

/-- Association-list update: the new binding replaces any previous binding
of the same key. -/
def store {κ α : Type} [DecidableEq κ] (k : κ) (v : α) (l : List (κ × α)) :
    List (κ × α) :=
  (k, v) :: l.filter (fun p => decide (p.1 ≠ k))

/-- The contract's persistent and instance storage. -/
structure State : Type where
  config : Option Config
  rounds : List (Nat × RoundData)
  bets : List ((Nat × Player) × BetData)
deriving DecidableEq, Repr

/-- Externally visible effects of one invocation, in the order the
contract performs them: token transfers and persistent-storage writes. -/
inductive Effect : Type
  | transfer : Account → Account → Int → Effect
  | writeRound : Nat → RoundData → Effect
  | writeBet : Nat × Player → BetData → Effect
deriving DecidableEq, Repr

/-- Result of one invocation: the error (if any), the resulting storage,
and the trace of effects the invocation performed before returning. -/
structure Res : Type where
  err : Option Error
  newState : State
  trace : List Effect
deriving DecidableEq, Repr

/-- An invocation that fails before performing any effect. -/
def fail (s : State) (e : Error) : Res := ⟨some e, s, []⟩

/-- Entry point `init` (lines 187-208). -/
def init (s : State) (min_wager max_wager house_edge_bps : Int) : Res :=
  match s.config with
  | some _ => fail s .AlreadyInitialized
  | none =>
      ⟨none, { s with config := some ⟨min_wager, max_wager, house_edge_bps⟩ }, []⟩

/-- Entry point `open_market` (lines 214-259).  The oracle's answer for
the asset is the parameter `oracle_price`; the ledger timestamp is `now`. -/
def open_market (s : State) (round_id asset close_time now : Nat)
    (oracle_price : Int) : Res :=
  match s.config with
  | none => fail s .NotInitialized
  | some _ =>
      if close_time ≤ now then fail s .InvalidCloseTime
      else if (find? round_id s.rounds).isSome then fail s .RoundAlreadyExists
      else if oracle_price ≤ 0 then fail s .InvalidPrice
      else
        let round : RoundData :=
          ⟨asset, oracle_price, 0, close_time, 0, 0, false, 0, false, 0, 0⟩
        ⟨none, { s with rounds := store round_id round s.rounds },
          [.writeRound round_id round]⟩

/-- Overflow-checked update of the round totals performed by
`place_prediction` (lines 322-327): the wager is added to the side
matching the bet's direction. -/
def updateTotals (round : RoundData) (direction : Nat) (wager : Int) :
    Option RoundData :=
  if direction = DIRECTION_UP then
    (checkedAdd round.total_up wager).map (fun v => { round with total_up := v })
  else
    (checkedAdd round.total_down wager).map (fun v => { round with total_down := v })

/-- Entry point `place_prediction` (lines 266-346).  The ledger timestamp
is `now`.  The escrow transfer (line 316) is performed before the
overflow-checked totals update (lines 324/326), exactly as in the source. -/
def place_prediction (s : State) (player : Player) (round_id direction : Nat)
    (wager : Int) (now : Nat) : Res :=
  match s.config with
  | none => fail s .NotInitialized
  | some cfg =>
      if direction ≠ DIRECTION_UP ∧ direction ≠ DIRECTION_DOWN then
        fail s .InvalidDirection
      else if wager ≤ 0 then fail s .InvalidAmount
      else if wager < cfg.min_wager then fail s .WagerTooLow
      else if cfg.max_wager < wager then fail s .WagerTooHigh
      else
        match find? round_id s.rounds with
        | none => fail s .RoundNotFound
        | some round =>
            if round.settled then fail s .AlreadySettled
            else if round.close_time ≤ now then fail s .RoundClosed
            else if (find? (round_id, player) s.bets).isSome then
              fail s .BetAlreadyPlaced
            else
              match updateTotals round direction wager with
              | none =>
                  ⟨some .Overflow, s,
                    [.transfer (.player player) .contract wager]⟩
              | some round' =>
                  ⟨none,
                    { s with
                      rounds := (store round_id round' s.rounds),
                      bets := (store (round_id, player) ⟨direction, wager, false⟩ s.bets) },
                    [.transfer (.player player) .contract wager,
                      .writeRound round_id round',
                      .writeBet (round_id, player) ⟨direction, wager, false⟩]⟩

/-- Outcome classification of `settle_round` (lines 382-388). -/
def outcomeOf (open_price close_price : Int) : Nat :=
  if open_price < close_price then OUTCOME_UP
  else if close_price < open_price then OUTCOME_DOWN
  else OUTCOME_FLAT

/-- Push detection of `settle_round` (lines 391-394). -/
def isPushOf (outcome : Nat) (total_pool total_up total_down : Int) : Bool :=
  (outcome == OUTCOME_FLAT) || (total_pool == 0) ||
    (total_up == 0) || (total_down == 0)

/-- Net-pool and winning-total computation of `settle_round`
(lines 396-412): zero for a push, otherwise the checked fee deduction and
the winning side's total. -/
def poolSplit (house_edge_bps total_pool : Int) (outcome : Nat)
    (total_up total_down : Int) (is_push : Bool) : Option (Int × Int) :=
  if is_push then some (0, 0)
  else
    match (checkedMul total_pool house_edge_bps).bind
        (fun v => checkedDiv v BASIS_POINTS_DIVISOR) with
    | none => none
    | some fee =>
        match checkedSub total_pool fee with
        | none => none
        | some net =>
            some (net, if outcome == OUTCOME_UP then total_up else total_down)

/-- The frozen round record written by `settle_round` (lines 414-420). -/
def settledRound (round : RoundData) (close_price total_pool : Int)
    (net_pool winning_total : Int) : RoundData :=
  { round with
    close_price := close_price, settled := true,
    outcome := outcomeOf round.open_price close_price,
    is_push := isPushOf (outcomeOf round.open_price close_price)
      total_pool round.total_up round.total_down,
    net_pool := net_pool, winning_total := winning_total }

/-- Entry point `settle_round` (lines 355-427).  The oracle's closing
price is the parameter `close_price`; the ledger timestamp is `now`. -/
def settle_round (s : State) (round_id now : Nat) (close_price : Int) : Res :=
  match s.config with
  | none => fail s .NotInitialized
  | some cfg =>
      match find? round_id s.rounds with
      | none => fail s .RoundNotFound
      | some round =>
          if round.settled then fail s .AlreadySettled
          else if now < round.close_time then fail s .RoundNotClosed
          else
            match checkedAdd round.total_up round.total_down with
            | none => fail s .Overflow
            | some total_pool =>
                match poolSplit cfg.house_edge_bps total_pool
                    (outcomeOf round.open_price close_price)
                    round.total_up round.total_down
                    (isPushOf (outcomeOf round.open_price close_price)
                      total_pool round.total_up round.total_down) with
                | none => fail s .Overflow
                | some (net_pool, winning_total) =>
                    ⟨none,
                      { s with rounds := (store round_id
                          (settledRound round close_price total_pool
                            net_pool winning_total) s.rounds) },
                      [.writeRound round_id
                        (settledRound round close_price total_pool
                          net_pool winning_total)]⟩

/-- Winner's proportional share of the net pool, the value computed by the
checked multiply-divide of `claim` (lines 468-472) when it succeeds. -/
def winShare (net_pool wager winning_total : Int) : Int :=
  (net_pool * wager).tdiv winning_total

/-- Payout computation of `claim` (lines 463-475): refund on a push, the
checked proportional share for a bet matching the outcome, zero otherwise. -/
def payoutOf (round : RoundData) (bet : BetData) : Option Int :=
  if round.is_push then some bet.wager
  else if bet.direction == round.outcome then
    (checkedMul round.net_pool bet.wager).bind
      (fun v => checkedDiv v round.winning_total)
  else some 0

/-- Entry point `claim` (lines 434-497).  The `claimed` flag is written
before the payout transfer, exactly as in the source (lines 482-493). -/
def claim (s : State) (player : Player) (round_id : Nat) : Res :=
  match s.config with
  | none => fail s .NotInitialized
  | some _ =>
      match find? round_id s.rounds with
      | none => fail s .RoundNotFound
      | some round =>
          if !round.settled then fail s .NotSettled
          else
            match find? (round_id, player) s.bets with
            | none => fail s .BetNotFound
            | some bet =>
                if bet.claimed then fail s .AlreadyClaimed
                else
                  match payoutOf round bet with
                  | none => fail s .Overflow
                  | some payout =>
                      if payout = 0 then fail s .NoPayout
                      else
                        ⟨none,
                          { s with bets := (store (round_id, player)
                              ({ bet with claimed := true }) s.bets) },
                          [.writeBet (round_id, player) { bet with claimed := true },
                            .transfer .contract (.player player) payout]⟩

/-- One public invocation of the contract together with its environment
inputs (ledger timestamp, oracle answer). -/
inductive Op : Type
  | opInit (min_wager max_wager house_edge_bps : Int)
  | opOpenMarket (round_id asset close_time now : Nat) (oracle_price : Int)
  | opPlace (player : Player) (round_id direction : Nat) (wager : Int) (now : Nat)
  | opSettle (round_id now : Nat) (close_price : Int)
  | opClaim (player : Player) (round_id : Nat)
deriving DecidableEq, Repr

/-- Storage after one invocation (a failed invocation leaves storage
unchanged, matching the fail-before-write structure of every entry point). -/
def exec (s : State) : Op → State
  | .opInit a b c => (init s a b c).newState
  | .opOpenMarket r a ct n p => (open_market s r a ct n p).newState
  | .opPlace p r d w n => (place_prediction s p r d w n).newState
  | .opSettle r n cp => (settle_round s r n cp).newState
  | .opClaim p r => (claim s p r).newState

/-- Storage after a sequence of invocations. -/
def execList (s : State) (ops : List Op) : State := ops.foldl exec s

/-- The contract's storage before `init`: nothing set. -/
def init0 : State := ⟨none, [], []⟩

/-- A storage state the deployed contract can actually be in. -/
def reachable (s : State) : Prop := ∃ ops, execList init0 ops = s

/-- Sum of the wagers of all stored bets of one round. -/
def sumWagers (round_id : Nat) (bets : List ((Nat × Player) × BetData)) : Int :=
  ((bets.filter (fun p => decide (p.1.1 = round_id))).map
    (fun p => p.2.wager)).sum

/-- Keys of an association list are pairwise distinct. -/
def keysNodup {κ α : Type} (l : List (κ × α)) : Prop :=
  (l.map Prod.fst).Nodup

/-- A demonstration run (spec Scenario A, before settlement): fee 500 bps,
round 1 opened at price 50000 closing at time 10, player 1 wagers 300 Up,
player 2 wagers 500 Down. -/
def demoOps : List Op :=
  [.opInit 10 10000 500, .opOpenMarket 1 7 10 0 50000,
   .opPlace 1 1 0 300 5, .opPlace 2 1 1 500 5]

/-- The demonstration run, settled at close price 55000 (outcome Up). -/
def demoSettleOps : List Op := demoOps ++ [.opSettle 1 10 55000]

/-- A run whose round holds `i128::MAX` on the Up side, so that one more
1-token Up wager overflows the checked totals addition. -/
def demoOverflowOps : List Op :=
  [.opInit 1 I128_MAX 500, .opOpenMarket 1 7 10 0 50000,
   .opPlace 1 1 0 I128_MAX 5]

/-- A run with a 100% house edge (10000 bps): the settled round is
decisive (Up) but its net pool is zero, so the winner's floored share is
zero. -/
def demoZeroShareOps : List Op :=
  [.opInit 1 10000 10000, .opOpenMarket 1 7 10 0 100,
   .opPlace 1 1 0 100 5, .opPlace 2 1 1 100 5, .opSettle 1 10 200]

/-! ### Association-list lemmas -/

theorem find?_store_self {κ α : Type} [DecidableEq κ] (k : κ) (v : α)
    (l : List (κ × α)) : find? k (store k v l) = some v := by
  simp [find?, store]

theorem find?_filter_ne {κ α : Type} [DecidableEq κ] {k k' : κ} (h : k' ≠ k)
    (l : List (κ × α)) :
    find? k' (l.filter (fun p => decide (p.1 ≠ k))) = find? k' l := by
  induction l with
  | nil => rfl
  | cons e rest ih =>
      obtain ⟨ek, ev⟩ := e
      rw [List.filter_cons]
      by_cases he : ek = k
      · rw [if_neg (by simp [he]), ih]
        simp only [find?]
        rw [if_neg (fun hh : ek = k' => h (hh.symm.trans he))]
      · rw [if_pos (by simp [he])]
        simp only [find?]
        by_cases he' : ek = k'
        · rw [if_pos he', if_pos he']
        · rw [if_neg he', if_neg he', ih]

theorem find?_store_ne {κ α : Type} [DecidableEq κ] {k k' : κ} (v : α)
    (l : List (κ × α)) (h : k' ≠ k) :
    find? k' (store k v l) = find? k' l := by
  have hk : ¬ (k = k') := fun hh => h hh.symm
  unfold store
  simp only [find?]
  rw [if_neg hk, find?_filter_ne h]

theorem find?_eq_none_iff {κ α : Type} [DecidableEq κ] {k : κ}
    {l : List (κ × α)} : find? k l = none ↔ ∀ e ∈ l, e.1 ≠ k := by
  induction l with
  | nil => simp [find?]
  | cons e rest ih =>
      cases e with
      | mk ek ev =>
          by_cases he : ek = k
          · simp [find?, he]
          · simp [find?, he, ih]

theorem filter_eq_self_of_find?_none {κ α : Type} [DecidableEq κ] {k : κ}
    {l : List (κ × α)} (h : find? k l = none) :
    l.filter (fun p => decide (p.1 ≠ k)) = l := by
  rw [List.filter_eq_self]
  intro e he
  exact decide_eq_true (find?_eq_none_iff.mp h e he)

theorem mem_store {κ α : Type} [DecidableEq κ] {k : κ} {v : α}
    {l : List (κ × α)} {e : κ × α} (h : e ∈ store k v l) :
    e = (k, v) ∨ e ∈ l := by
  rcases List.mem_cons.mp h with h' | h'
  · exact Or.inl h'
  · exact Or.inr (List.mem_of_mem_filter h')

theorem keysNodup_store {κ α : Type} [DecidableEq κ] (k : κ) (v : α)
    {l : List (κ × α)} (h : keysNodup l) : keysNodup (store k v l) := by
  unfold keysNodup store
  simp only [List.map_cons, List.nodup_cons]
  constructor
  · intro hmem
    rcases List.mem_map.mp hmem with ⟨e, he, hk⟩
    have := List.of_mem_filter he
    simp [hk] at this
  · exact h.sublist ((List.filter_sublist l).map Prod.fst)

/-! ### Checked-arithmetic inversion lemmas -/

theorem checkedAdd_some {a b c : Int} (h : checkedAdd a b = some c) :
    c = a + b := by
  unfold checkedAdd at h
  split at h
  · exact (Option.some_inj.mp h).symm
  · exact absurd h (by simp)

theorem checkedSub_some {a b c : Int} (h : checkedSub a b = some c) :
    c = a - b := by
  unfold checkedSub at h
  split at h
  · exact (Option.some_inj.mp h).symm
  · exact absurd h (by simp)

theorem checkedMul_some {a b c : Int} (h : checkedMul a b = some c) :
    c = a * b := by
  unfold checkedMul at h
  split at h
  · exact (Option.some_inj.mp h).symm
  · exact absurd h (by simp)

theorem checkedDiv_some {a b c : Int} (h : checkedDiv a b = some c) :
    c = a.tdiv b := by
  unfold checkedDiv at h
  split at h
  · exact absurd h (by simp)
  · split at h
    · exact absurd h (by simp)
    · exact (Option.some_inj.mp h).symm

theorem checkedAdd_of_inRange {a b : Int} (h1 : I128_MIN ≤ a + b)
    (h2 : a + b ≤ I128_MAX) : checkedAdd a b = some (a + b) := by
  unfold checkedAdd
  rw [if_pos ⟨h1, h2⟩]

theorem checkedMul_of_inRange {a b : Int} (h1 : I128_MIN ≤ a * b)
    (h2 : a * b ≤ I128_MAX) : checkedMul a b = some (a * b) := by
  unfold checkedMul
  rw [if_pos ⟨h1, h2⟩]

theorem checkedDiv_of_pos {a b : Int} (hb : 0 < b) :
    checkedDiv a b = some (a.tdiv b) := by
  unfold checkedDiv
  rw [if_neg (by omega), if_neg (by rintro ⟨-, h⟩; omega)]

/-! ### Case-analysis lemmas for the entry points -/

theorem init_cases (s : State) (a b c : Int) :
    init s a b c = fail s .AlreadyInitialized ∨
    (s.config = none ∧
      init s a b c = ⟨none, { s with config := some ⟨a, b, c⟩ }, []⟩) := by
  unfold init
  cases hc : s.config with
  | none => exact Or.inr ⟨rfl, rfl⟩
  | some cfg => exact Or.inl rfl

theorem open_market_cases (s : State) (r a ct now : Nat) (price : Int) :
    (∃ e, open_market s r a ct now price = fail s e) ∨
    (find? r s.rounds = none ∧
      open_market s r a ct now price =
        ⟨none,
          { s with rounds := (store r
              ⟨a, price, 0, ct, 0, 0, false, 0, false, 0, 0⟩ s.rounds) },
          [.writeRound r ⟨a, price, 0, ct, 0, 0, false, 0, false, 0, 0⟩]⟩) := by
  unfold open_market
  cases hc : s.config with
  | none => exact Or.inl ⟨_, rfl⟩
  | some cfg =>
      dsimp only
      by_cases h1 : ct ≤ now
      · rw [if_pos h1]; exact Or.inl ⟨_, rfl⟩
      · rw [if_neg h1]
        by_cases h2 : (find? r s.rounds).isSome
        · rw [if_pos h2]; exact Or.inl ⟨_, rfl⟩
        · rw [if_neg h2]
          by_cases h3 : price ≤ 0
          · rw [if_pos h3]; exact Or.inl ⟨_, rfl⟩
          · rw [if_neg h3]
            exact Or.inr ⟨by simpa [Option.not_isSome_iff_eq_none] using h2, rfl⟩

theorem place_prediction_cases (s : State) (p : Player) (r d : Nat)
    (w : Int) (now : Nat) :
    (∃ e, e ≠ Error.Overflow ∧ place_prediction s p r d w now = fail s e) ∨
    (place_prediction s p r d w now =
      ⟨some .Overflow, s, [.transfer (.player p) .contract w]⟩) ∨
    ∃ round round' : RoundData,
      find? r s.rounds = some round ∧ round.settled = false ∧
      now < round.close_time ∧ find? (r, p) s.bets = none ∧
      updateTotals round d w = some round' ∧
      place_prediction s p r d w now =
        ⟨none,
          { s with rounds := (store r round' s.rounds),
                   bets := (store (r, p) ⟨d, w, false⟩ s.bets) },
          [.transfer (.player p) .contract w, .writeRound r round',
            .writeBet (r, p) ⟨d, w, false⟩]⟩ := by
  unfold place_prediction
  cases hc : s.config with
  | none => exact Or.inl ⟨_, by simp, rfl⟩
  | some cfg =>
      dsimp only
      by_cases h1 : d ≠ DIRECTION_UP ∧ d ≠ DIRECTION_DOWN
      · rw [if_pos h1]; exact Or.inl ⟨_, by simp, rfl⟩
      · rw [if_neg h1]
        by_cases h2 : w ≤ 0
        · rw [if_pos h2]; exact Or.inl ⟨_, by simp, rfl⟩
        · rw [if_neg h2]
          by_cases h3 : w < cfg.min_wager
          · rw [if_pos h3]; exact Or.inl ⟨_, by simp, rfl⟩
          · rw [if_neg h3]
            by_cases h4 : cfg.max_wager < w
            · rw [if_pos h4]; exact Or.inl ⟨_, by simp, rfl⟩
            · rw [if_neg h4]
              cases hr : find? r s.rounds with
              | none => exact Or.inl ⟨_, by simp, rfl⟩
              | some round =>
                  dsimp only
                  by_cases h5 : round.settled = true
                  · rw [if_pos h5]; exact Or.inl ⟨_, by simp, rfl⟩
                  · rw [if_neg h5]
                    by_cases h6 : round.close_time ≤ now
                    · rw [if_pos h6]; exact Or.inl ⟨_, by simp, rfl⟩
                    · rw [if_neg h6]
                      by_cases h7 : (find? (r, p) s.bets).isSome = true
                      · rw [if_pos h7]; exact Or.inl ⟨_, by simp, rfl⟩
                      · rw [if_neg h7]
                        cases hu : updateTotals round d w with
                        | none => exact Or.inr (Or.inl rfl)
                        | some round' =>
                            refine Or.inr (Or.inr ⟨round, round', rfl, ?_, ?_, ?_,
                              hu, rfl⟩)
                            · simpa using h5
                            · omega
                            · simpa [Option.not_isSome_iff_eq_none] using h7

theorem settle_round_cases (s : State) (r now : Nat) (cp : Int) :
    (∃ e, settle_round s r now cp = fail s e) ∨
    ∃ cfg round total_pool net_pool winning_total,
      s.config = some cfg ∧
      find? r s.rounds = some round ∧ round.settled = false ∧
      round.close_time ≤ now ∧
      checkedAdd round.total_up round.total_down = some total_pool ∧
      poolSplit cfg.house_edge_bps total_pool (outcomeOf round.open_price cp)
        round.total_up round.total_down
        (isPushOf (outcomeOf round.open_price cp) total_pool
          round.total_up round.total_down) = some (net_pool, winning_total) ∧
      settle_round s r now cp =
        ⟨none,
          { s with rounds := (store r
              (settledRound round cp total_pool net_pool winning_total)
              s.rounds) },
          [.writeRound r
            (settledRound round cp total_pool net_pool winning_total)]⟩ := by
  unfold settle_round
  cases hc : s.config with
  | none => exact Or.inl ⟨_, rfl⟩
  | some cfg =>
      dsimp only
      cases hr : find? r s.rounds with
      | none => exact Or.inl ⟨_, rfl⟩
      | some round =>
          dsimp only
          by_cases h1 : round.settled = true
          · rw [if_pos h1]; exact Or.inl ⟨_, rfl⟩
          · rw [if_neg h1]
            by_cases h2 : now < round.close_time
            · rw [if_pos h2]; exact Or.inl ⟨_, rfl⟩
            · rw [if_neg h2]
              cases ha : checkedAdd round.total_up round.total_down with
              | none => exact Or.inl ⟨_, rfl⟩
              | some total_pool =>
                  dsimp only
                  cases hps : poolSplit cfg.house_edge_bps total_pool
                      (outcomeOf round.open_price cp)
                      round.total_up round.total_down
                      (isPushOf (outcomeOf round.open_price cp) total_pool
                        round.total_up round.total_down) with
                  | none => exact Or.inl ⟨_, rfl⟩
                  | some pr =>
                      obtain ⟨np, wt⟩ := pr
                      exact Or.inr ⟨cfg, round, total_pool, np, wt,
                        rfl, rfl, by simpa using h1, by omega, ha, hps, rfl⟩

theorem claim_cases (s : State) (p : Player) (r : Nat) :
    (∃ e, claim s p r = fail s e) ∨
    ∃ cfg round bet pay,
      s.config = some cfg ∧
      find? r s.rounds = some round ∧ round.settled = true ∧
      find? (r, p) s.bets = some bet ∧ bet.claimed = false ∧
      payoutOf round bet = some pay ∧ pay ≠ 0 ∧
      claim s p r =
        ⟨none,
          { s with bets := (store (r, p) ({ bet with claimed := true }) s.bets) },
          [.writeBet (r, p) { bet with claimed := true },
            .transfer .contract (.player p) pay]⟩ := by
  unfold claim
  cases hc : s.config with
  | none => exact Or.inl ⟨_, rfl⟩
  | some cfg =>
      dsimp only
      cases hr : find? r s.rounds with
      | none => exact Or.inl ⟨_, rfl⟩
      | some round =>
          dsimp only
          by_cases h1 : round.settled = true
          · rw [if_neg (by simp [h1])]
            cases hb : find? (r, p) s.bets with
            | none => exact Or.inl ⟨_, rfl⟩
            | some bet =>
                dsimp only
                by_cases h2 : bet.claimed = true
                · rw [if_pos h2]; exact Or.inl ⟨_, rfl⟩
                · rw [if_neg h2]
                  cases hp : payoutOf round bet with
                  | none => exact Or.inl ⟨_, rfl⟩
                  | some pay =>
                      dsimp only
                      by_cases h3 : pay = 0
                      · rw [if_pos h3]; exact Or.inl ⟨_, rfl⟩
                      · rw [if_neg h3]
                        exact Or.inr ⟨cfg, round, bet, pay, rfl, rfl, h1, rfl,
                          by simpa using h2, hp, h3, rfl⟩
          · rw [if_pos (by simp [Bool.not_eq_true] at h1; simp [h1])]
            exact Or.inl ⟨_, rfl⟩

/-! ### Error-specific characterizations -/

theorem settle_already_settled (s : State) (cfg : Config) (r now : Nat)
    (cp : Int) (round : RoundData) (hc : s.config = some cfg)
    (hr : find? r s.rounds = some round) (hset : round.settled = true) :
    settle_round s r now cp = fail s .AlreadySettled := by
  unfold settle_round
  rw [hc, hr]
  simp [hset]

theorem place_already_settled (s : State) (cfg : Config) (p : Player)
    (r d : Nat) (w : Int) (now : Nat) (round : RoundData)
    (hc : s.config = some cfg)
    (hd : d = DIRECTION_UP ∨ d = DIRECTION_DOWN) (hw : 0 < w)
    (hmin : cfg.min_wager ≤ w) (hmax : w ≤ cfg.max_wager)
    (hr : find? r s.rounds = some round) (hset : round.settled = true) :
    place_prediction s p r d w now = fail s .AlreadySettled := by
  unfold place_prediction
  rw [hc, hr]
  dsimp only
  rw [if_neg (by rcases hd with h | h <;> simp [h])]
  rw [if_neg (by omega), if_neg (by omega), if_neg (by omega)]
  simp [hset]

theorem claim_already_claimed (s : State) (cfg : Config) (p : Player)
    (r : Nat) (round : RoundData) (bet : BetData)
    (hc : s.config = some cfg) (hr : find? r s.rounds = some round)
    (hset : round.settled = true) (hb : find? (r, p) s.bets = some bet)
    (hcl : bet.claimed = true) :
    claim s p r = fail s .AlreadyClaimed := by
  unfold claim
  rw [hc, hr, hb]
  simp [hset, hcl]

theorem claim_no_payout (s : State) (cfg : Config) (p : Player)
    (r : Nat) (round : RoundData) (bet : BetData)
    (hc : s.config = some cfg) (hr : find? r s.rounds = some round)
    (hset : round.settled = true) (hb : find? (r, p) s.bets = some bet)
    (hcl : bet.claimed = false) (hpay : payoutOf round bet = some 0) :
    claim s p r = fail s .NoPayout := by
  unfold claim
  rw [hc, hr, hb]
  simp [hset, hcl, hpay, fail]

/-! ### Persistence of frozen state across arbitrary invocations -/

theorem exec_config (s : State) (op : Op) (cfg : Config)
    (h : s.config = some cfg) : (exec s op).config = some cfg := by
  cases op with
  | opInit a b c =>
      rcases init_cases s a b c with h1 | ⟨hn, h1⟩
      · simp [exec, h1, fail, h]
      · rw [hn] at h; exact absurd h (by simp)
  | opOpenMarket r a ct n pr =>
      rcases open_market_cases s r a ct n pr with ⟨e, h1⟩ | ⟨hn, h1⟩ <;>
        simp [exec, h1, fail, h]
  | opPlace p r d w n =>
      rcases place_prediction_cases s p r d w n with
        ⟨e, _, h1⟩ | h1 | ⟨rd, rd', _, _, _, _, _, h1⟩ <;>
        simp [exec, h1, fail, h]
  | opSettle r n cp =>
      rcases settle_round_cases s r n cp with
        ⟨e, h1⟩ | ⟨c2, rd, tp, np, wt, _, _, _, _, _, _, h1⟩ <;>
        simp [exec, h1, fail, h]
  | opClaim p r =>
      rcases claim_cases s p r with
        ⟨e, h1⟩ | ⟨c2, rd, b, pay, _, _, _, _, _, _, _, h1⟩ <;>
        simp [exec, h1, fail, h]

theorem exec_settled_round (s : State) (op : Op) (r : Nat) (rd : RoundData)
    (hset : rd.settled = true) (hrd : find? r s.rounds = some rd) :
    find? r (exec s op).rounds = some rd := by
  cases op with
  | opInit a b c =>
      rcases init_cases s a b c with h1 | ⟨hn, h1⟩ <;>
        simp [exec, h1, fail, hrd]
  | opOpenMarket r' a ct n pr =>
      rcases open_market_cases s r' a ct n pr with ⟨e, h1⟩ | ⟨hn, h1⟩
      · simp [exec, h1, fail, hrd]
      · by_cases hrr : r = r'
        · rw [hrr] at hrd; rw [hrd] at hn; exact absurd hn (by simp)
        · simp only [exec, h1]
          rw [find?_store_ne _ _ hrr]
          exact hrd
  | opPlace p r' d w n =>
      rcases place_prediction_cases s p r' d w n with
        ⟨e, _, h1⟩ | h1 | ⟨rd2, rd2', hr2, hset2, _, _, _, h1⟩
      · simp [exec, h1, fail, hrd]
      · simp [exec, h1, hrd]
      · by_cases hrr : r = r'
        · exfalso
          rw [hrr] at hrd
          rw [hrd] at hr2
          injection hr2 with he
          rw [he] at hset
          rw [hset] at hset2
          exact absurd hset2 (by simp)
        · simp only [exec, h1]
          rw [find?_store_ne _ _ hrr]
          exact hrd
  | opSettle r' n cp =>
      rcases settle_round_cases s r' n cp with
        ⟨e, h1⟩ | ⟨c2, rd2, tp, np, wt, hc2, hr2, hset2, _, _, _, h1⟩
      · simp [exec, h1, fail, hrd]
      · by_cases hrr : r = r'
        · exfalso
          rw [hrr] at hrd
          rw [hrd] at hr2
          injection hr2 with he
          rw [he] at hset
          rw [hset] at hset2
          exact absurd hset2 (by simp)
        · simp only [exec, h1]
          rw [find?_store_ne _ _ hrr]
          exact hrd
  | opClaim p r' =>
      rcases claim_cases s p r' with
        ⟨e, h1⟩ | ⟨c2, rd2, b, pay, _, _, _, _, _, _, _, h1⟩ <;>
        simp [exec, h1, fail, hrd]

theorem exec_claimed_bet (s : State) (op : Op) (k : Nat × Player) (b : BetData)
    (hcl : b.claimed = true) (hb : find? k s.bets = some b) :
    find? k (exec s op).bets = some b := by
  cases op with
  | opInit a b' c =>
      rcases init_cases s a b' c with h1 | ⟨hn, h1⟩ <;>
        simp [exec, h1, fail, hb]
  | opOpenMarket r' a ct n pr =>
      rcases open_market_cases s r' a ct n pr with ⟨e, h1⟩ | ⟨hn, h1⟩ <;>
        simp [exec, h1, fail, hb]
  | opPlace p r' d w n =>
      rcases place_prediction_cases s p r' d w n with
        ⟨e, _, h1⟩ | h1 | ⟨rd2, rd2', hr2, hset2, hn2, hbn, hu, h1⟩
      · simp [exec, h1, fail, hb]
      · simp [exec, h1, hb]
      · by_cases hkk : k = (r', p)
        · rw [hkk] at hb; rw [hb] at hbn; exact absurd hbn (by simp)
        · simp only [exec, h1]
          rw [find?_store_ne _ _ hkk]
          exact hb
  | opSettle r' n cp =>
      rcases settle_round_cases s r' n cp with
        ⟨e, h1⟩ | ⟨c2, rd2, tp, np, wt, _, _, _, _, _, _, h1⟩ <;>
        simp [exec, h1, fail, hb]
  | opClaim p r' =>
      rcases claim_cases s p r' with
        ⟨e, h1⟩ | ⟨c2, rd2, b2, pay, hc2, hr2, hset2, hb2, hcl2, hp2, hpz, h1⟩
      · simp [exec, h1, fail, hb]
      · by_cases hkk : k = (r', p)
        · exfalso
          rw [hkk] at hb
          rw [hb] at hb2
          injection hb2 with he
          rw [he] at hcl
          rw [hcl] at hcl2
          exact absurd hcl2 (by simp)
        · simp only [exec, h1]
          rw [find?_store_ne _ _ hkk]
          exact hb

theorem exec_zero_share_bet (s : State) (op : Op) (r : Nat) (p : Player)
    (rd : RoundData) (b : BetData)
    (hset : rd.settled = true) (hcl : b.claimed = false)
    (hpay : payoutOf rd b = some 0)
    (hrd : find? r s.rounds = some rd) (hb : find? (r, p) s.bets = some b) :
    find? r (exec s op).rounds = some rd ∧
    find? (r, p) (exec s op).bets = some b := by
  refine ⟨exec_settled_round s op r rd hset hrd, ?_⟩
  cases op with
  | opInit a b' c =>
      rcases init_cases s a b' c with h1 | ⟨hn, h1⟩ <;>
        simp [exec, h1, fail, hb]
  | opOpenMarket r' a ct n pr =>
      rcases open_market_cases s r' a ct n pr with ⟨e, h1⟩ | ⟨hn, h1⟩ <;>
        simp [exec, h1, fail, hb]
  | opPlace p' r' d w n =>
      rcases place_prediction_cases s p' r' d w n with
        ⟨e, _, h1⟩ | h1 | ⟨rd2, rd2', hr2, hset2, hn2, hbn, hu, h1⟩
      · simp [exec, h1, fail, hb]
      · simp [exec, h1, hb]
      · by_cases hkk : (r, p) = (r', p')
        · rw [hkk] at hb; rw [hb] at hbn; exact absurd hbn (by simp)
        · simp only [exec, h1]
          rw [find?_store_ne _ _ hkk]
          exact hb
  | opSettle r' n cp =>
      rcases settle_round_cases s r' n cp with
        ⟨e, h1⟩ | ⟨c2, rd2, tp, np, wt, _, _, _, _, _, _, h1⟩ <;>
        simp [exec, h1, fail, hb]
  | opClaim p' r' =>
      rcases claim_cases s p' r' with
        ⟨e, h1⟩ | ⟨c2, rd2, b2, pay, hc2, hr2, hset2, hb2, hcl2, hp2, hpz, h1⟩
      · simp [exec, h1, fail, hb]
      · by_cases hkk : (r, p) = (r', p')
        · exfalso
          rw [Prod.mk.injEq] at hkk
          obtain ⟨hk1, hk2⟩ := hkk
          rw [← hk1] at hr2
          rw [← hk1, ← hk2] at hb2
          rw [hb] at hb2
          injection hb2 with he
          rw [hrd] at hr2
          injection hr2 with he2
          rw [← he, ← he2, hpay] at hp2
          injection hp2 with he3
          exact hpz he3.symm
        · simp only [exec, h1]
          rw [find?_store_ne _ _ hkk]
          exact hb

/-! ### Arithmetic helper lemmas -/

theorem ediv_add_ediv_le {a b c : Int} (hc : 0 < c) :
    a / c + b / c ≤ (a + b) / c := by
  rw [Int.le_ediv_iff_mul_le hc]
  have h1 : a / c * c ≤ a := Int.ediv_mul_le a (by omega)
  have h2 : b / c * c ≤ b := Int.ediv_mul_le b (by omega)
  nlinarith

theorem winShare_eq_ediv {np w wt : Int} (hn : 0 ≤ np * w) (hwt : 0 ≤ wt) :
    winShare np w wt = np * w / wt := by
  unfold winShare
  exact Int.tdiv_eq_ediv hn hwt

theorem winShare_nonneg {np w wt : Int} (hnp : 0 ≤ np) (hw : 0 ≤ w)
    (hwt : 0 < wt) : 0 ≤ winShare np w wt := by
  rw [winShare_eq_ediv (mul_nonneg hnp hw) hwt.le]
  exact Int.ediv_nonneg (mul_nonneg hnp hw) hwt.le

theorem sum_winShare_le (np wt : Int) (hnp : 0 ≤ np) (hwt : 0 < wt)
    (ws : List Int) (hws : ∀ w ∈ ws, 0 ≤ w) :
    (ws.map (fun w => winShare np w wt)).sum ≤ np * ws.sum / wt := by
  induction ws with
  | nil => simp
  | cons w rest ih =>
      have hw : 0 ≤ w := hws w (by simp)
      have hrest : ∀ x ∈ rest, 0 ≤ x := fun x hx => hws x (by simp [hx])
      have hrs : 0 ≤ rest.sum := List.sum_nonneg hrest
      calc (((w :: rest).map (fun x => winShare np x wt)).sum)
          = winShare np w wt + (rest.map (fun x => winShare np x wt)).sum := by
            simp
        _ ≤ np * w / wt + np * rest.sum / wt := by
            have := ih hrest
            rw [winShare_eq_ediv (mul_nonneg hnp hw) hwt.le]
            omega
        _ ≤ (np * w + np * rest.sum) / wt := ediv_add_ediv_le hwt
        _ = np * (w :: rest).sum / wt := by
            rw [List.sum_cons, mul_add]

theorem ediv_zero_imp_lt {a b : Int} (ha : 0 ≤ a) (hb : 0 < b)
    (h : a / b = 0) : a < b := by
  by_contra hab
  push_neg at hab
  have : 1 ≤ a / b := by
    rw [Int.le_ediv_iff_mul_le hb]
    omega
  omega

theorem payoutOf_eq_zero (rd : RoundData) (b : BetData)
    (hpush : rd.is_push = false) (hdir : b.direction = rd.outcome)
    (hnp : 0 ≤ rd.net_pool) (hw : 0 < b.wager)
    (hwt : 0 < rd.winning_total) (hwtmax : rd.winning_total ≤ I128_MAX)
    (hshare : winShare rd.net_pool b.wager rd.winning_total = 0) :
    payoutOf rd b = some 0 := by
  have hnw : 0 ≤ rd.net_pool * b.wager := mul_nonneg hnp hw.le
  have hlt : rd.net_pool * b.wager < rd.winning_total := by
    have h0 := hshare
    rw [winShare_eq_ediv hnw hwt.le] at h0
    exact ediv_zero_imp_lt hnw hwt h0
  have hmin : I128_MIN ≤ (0 : Int) := by decide
  have hmul : checkedMul rd.net_pool b.wager =
      some (rd.net_pool * b.wager) :=
    checkedMul_of_inRange (le_trans hmin hnw) (by omega)
  unfold payoutOf
  rw [hpush, hdir]
  simp only [Bool.false_eq_true, if_false, beq_self_eq_true, if_true, hmul]
  show checkedDiv (rd.net_pool * b.wager) rd.winning_total = some 0
  rw [checkedDiv_of_pos hwt]
  unfold winShare at hshare
  rw [hshare]

/-! ### Wager-sum lemmas -/

theorem sumWagers_cons (r : Nat) (e : (Nat × Player) × BetData)
    (l : List ((Nat × Player) × BetData)) :
    sumWagers r (e :: l) =
      (if e.1.1 = r then e.2.wager else 0) + sumWagers r l := by
  unfold sumWagers
  by_cases h : e.1.1 = r <;> simp [h, List.filter_cons]

theorem sumWagers_store_fresh (r : Nat) (k : Nat × Player) (v : BetData)
    (l : List ((Nat × Player) × BetData)) (hk : find? k l = none) :
    sumWagers r (store k v l) =
      (if k.1 = r then v.wager else 0) + sumWagers r l := by
  unfold store
  rw [filter_eq_self_of_find?_none hk]
  exact sumWagers_cons r (k, v) l

theorem sumWagers_eq_zero (r : Nat) (l : List ((Nat × Player) × BetData))
    (h : ∀ e ∈ l, e.1.1 ≠ r) : sumWagers r l = 0 := by
  induction l with
  | nil => rfl
  | cons e rest ih =>
      rw [sumWagers_cons, if_neg (h e (by simp))]
      rw [ih (fun x hx => h x (by simp [hx]))]
      ring

theorem sumWagers_store_same_wager (r : Nat) (k : Nat × Player)
    (b b' : BetData) (l : List ((Nat × Player) × BetData))
    (hnd : keysNodup l) (hb : find? k l = some b) (hw : b'.wager = b.wager) :
    sumWagers r (store k b' l) = sumWagers r l := by
  induction l with
  | nil => exact absurd hb (by simp [find?])
  | cons e rest ih =>
      obtain ⟨ek, ev⟩ := e
      unfold keysNodup at hnd
      rw [List.map_cons, List.nodup_cons] at hnd
      obtain ⟨hk1, hk2⟩ := hnd
      by_cases he : ek = k
      · subst he
        rw [find?] at hb
        rw [if_pos rfl] at hb
        injection hb with hbe
        have hkr : find? ek rest = none := by
          rw [find?_eq_none_iff]
          intro e2 he2 heq
          have hm : e2.1 ∈ rest.map Prod.fst := List.mem_map_of_mem Prod.fst he2
          rw [heq] at hm
          exact hk1 hm
        unfold store
        rw [List.filter_cons, if_neg (by simp), filter_eq_self_of_find?_none hkr]
        rw [sumWagers_cons, sumWagers_cons]
        rw [hw, hbe]
      · rw [find?] at hb
        rw [if_neg he] at hb
        have hrec := ih hk2 hb
        unfold store at hrec ⊢
        rw [List.filter_cons, if_pos (by simp [he])]
        rw [sumWagers_cons, sumWagers_cons, sumWagers_cons] at *
        omega

theorem execList_config (s : State) (ops : List Op) (cfg : Config)
    (h : s.config = some cfg) : (execList s ops).config = some cfg := by
  induction ops generalizing s with
  | nil => exact h
  | cons op rest ih =>
      simp only [execList, List.foldl_cons]
      exact ih _ (exec_config s op cfg h)

theorem execList_settled_round (s : State) (ops : List Op) (r : Nat)
    (rd : RoundData) (hset : rd.settled = true)
    (hrd : find? r s.rounds = some rd) :
    find? r (execList s ops).rounds = some rd := by
  induction ops generalizing s with
  | nil => exact hrd
  | cons op rest ih =>
      simp only [execList, List.foldl_cons]
      exact ih _ (exec_settled_round s op r rd hset hrd)

theorem execList_claimed_bet (s : State) (ops : List Op) (k : Nat × Player)
    (b : BetData) (hcl : b.claimed = true) (hb : find? k s.bets = some b) :
    find? k (execList s ops).bets = some b := by
  induction ops generalizing s with
  | nil => exact hb
  | cons op rest ih =>
      simp only [execList, List.foldl_cons]
      exact ih _ (exec_claimed_bet s op k b hcl hb)

theorem execList_zero_share_bet (s : State) (ops : List Op) (r : Nat)
    (p : Player) (rd : RoundData) (b : BetData)
    (hset : rd.settled = true) (hcl : b.claimed = false)
    (hpay : payoutOf rd b = some 0)
    (hrd : find? r s.rounds = some rd) (hb : find? (r, p) s.bets = some b) :
    find? r (execList s ops).rounds = some rd ∧
    find? (r, p) (execList s ops).bets = some b := by
  induction ops generalizing s with
  | nil => exact ⟨hrd, hb⟩
  | cons op rest ih =>
      simp only [execList, List.foldl_cons]
      obtain ⟨h1, h2⟩ := exec_zero_share_bet s op r p rd b hset hcl hpay hrd hb
      exact ih _ h1 h2

/-! ### The pool-accounting invariant (totals match stored wagers) -/

/-- Invariant of every reachable storage state: bet keys are unique, every
bet belongs to an existing round, and each round's totals equal the sum of
the stored wagers of that round. -/
def InvC8 (s : State) : Prop :=
  keysNodup s.bets ∧
  (∀ e ∈ s.bets, (find? e.1.1 s.rounds).isSome = true) ∧
  ∀ r rd, find? r s.rounds = some rd →
    rd.total_up + rd.total_down = sumWagers r s.bets

theorem find?_isSome_store {κ α : Type} [DecidableEq κ] (k k' : κ) (v : α)
    (l : List (κ × α)) (h : (find? k l).isSome = true) :
    (find? k (store k' v l)).isSome = true := by
  by_cases hk : k = k'
  · rw [hk, find?_store_self]; rfl
  · rw [find?_store_ne _ _ hk]; exact h

theorem updateTotals_sum (round round' : RoundData) (d : Nat) (w : Int)
    (h : updateTotals round d w = some round') :
    round'.total_up + round'.total_down =
      round.total_up + round.total_down + w ∧
    round'.settled = round.settled := by
  unfold updateTotals at h
  split at h
  · cases ha : checkedAdd round.total_up w with
    | none => rw [ha] at h; exact absurd h (by simp)
    | some v =>
        rw [ha] at h
        injection h with h2
        have hv := checkedAdd_some ha
        rw [← h2]
        constructor
        · dsimp only; omega
        · rfl
  · cases ha : checkedAdd round.total_down w with
    | none => rw [ha] at h; exact absurd h (by simp)
    | some v =>
        rw [ha] at h
        injection h with h2
        have hv := checkedAdd_some ha
        rw [← h2]
        constructor
        · dsimp only; omega
        · rfl

theorem exec_InvC8 (s : State) (op : Op) (h : InvC8 s) : InvC8 (exec s op) := by
  obtain ⟨hnd, hcov, hsum⟩ := h
  cases op with
  | opInit a b c =>
      rcases init_cases s a b c with h1 | ⟨hn, h1⟩
      · simp only [exec, h1]; exact ⟨hnd, hcov, hsum⟩
      · simp only [exec, h1]; exact ⟨hnd, hcov, hsum⟩
  | opOpenMarket r' a ct n pr =>
      rcases open_market_cases s r' a ct n pr with ⟨e, h1⟩ | ⟨hn, h1⟩
      · simp only [exec, h1]; exact ⟨hnd, hcov, hsum⟩
      · simp only [exec, h1]
        refine ⟨hnd, ?_, ?_⟩
        · intro e he
          exact find?_isSome_store _ _ _ _ (hcov e he)
        · intro r rd hrd
          by_cases hrr : r = r'
          · subst hrr
            rw [find?_store_self] at hrd
            injection hrd with he
            rw [← he]
            dsimp only
            have hz : sumWagers r s.bets = 0 := by
              apply sumWagers_eq_zero
              intro e he2 heq
              have hcc := hcov e he2
              rw [heq, hn] at hcc
              exact absurd hcc (by simp)
            rw [hz]
            ring
          · rw [find?_store_ne _ _ hrr] at hrd
            exact hsum r rd hrd
  | opPlace p r' d w n =>
      rcases place_prediction_cases s p r' d w n with
        ⟨e, _, h1⟩ | h1 | ⟨rd2, rd2', hr2, hset2, hn2, hbn, hu, h1⟩
      · simp only [exec, h1]; exact ⟨hnd, hcov, hsum⟩
      · simp only [exec, h1]; exact ⟨hnd, hcov, hsum⟩
      · simp only [exec, h1]
        refine ⟨keysNodup_store _ _ hnd, ?_, ?_⟩
        · intro e he
          rcases mem_store he with he' | he'
          · rw [he']
            exact find?_isSome_store _ _ _ _ (by rw [hr2]; rfl)
          · exact find?_isSome_store _ _ _ _ (hcov e he')
        · intro r rd hrd
          by_cases hrr : r = r'
          · subst hrr
            rw [find?_store_self] at hrd
            injection hrd with he
            rw [← he]
            rw [sumWagers_store_fresh _ _ _ _ hbn]
            obtain ⟨ht, _⟩ := updateTotals_sum rd2 rd2' d w hu
            rw [ht, if_pos rfl, ← hsum r rd2 hr2]
            ring
          · rw [find?_store_ne _ _ hrr] at hrd
            rw [sumWagers_store_fresh _ _ _ _ hbn,
              if_neg (fun hh => hrr hh.symm)]
            rw [← hsum r rd hrd]
            ring
  | opSettle r' n cp =>
      rcases settle_round_cases s r' n cp with
        ⟨e, h1⟩ | ⟨c2, rd2, tp, np, wt, hc2, hr2, hset2, hct2, ha, hps, h1⟩
      · simp only [exec, h1]; exact ⟨hnd, hcov, hsum⟩
      · simp only [exec, h1]
        refine ⟨hnd, ?_, ?_⟩
        · intro e he
          exact find?_isSome_store _ _ _ _ (hcov e he)
        · intro r rd hrd
          by_cases hrr : r = r'
          · subst hrr
            rw [find?_store_self] at hrd
            injection hrd with he
            rw [← he]
            unfold settledRound
            dsimp only
            exact hsum r rd2 hr2
          · rw [find?_store_ne _ _ hrr] at hrd
            exact hsum r rd hrd
  | opClaim p r' =>
      rcases claim_cases s p r' with
        ⟨e, h1⟩ | ⟨c2, rd2, b2, pay, hc2, hr2, hset2, hb2, hcl2, hp2, hpz, h1⟩
      · simp only [exec, h1]; exact ⟨hnd, hcov, hsum⟩
      · simp only [exec, h1]
        refine ⟨keysNodup_store _ _ hnd, ?_, ?_⟩
        · intro e he
          rcases mem_store he with he' | he'
          · rw [he']
            rw [hr2]; rfl
          · exact hcov e he'
        · intro r rd hrd
          rw [sumWagers_store_same_wager r (r', p) b2
            ({ b2 with claimed := true }) s.bets hnd hb2 rfl]
          exact hsum r rd hrd

theorem InvC8_init0 : InvC8 init0 := by
  refine ⟨List.nodup_nil, ?_, ?_⟩
  · intro e he; exact absurd he (by simp [init0])
  · intro r rd hrd; exact absurd hrd (by simp [init0, find?])

theorem execList_InvC8 (s : State) (ops : List Op) (h : InvC8 s) :
    InvC8 (execList s ops) := by
  induction ops generalizing s with
  | nil => exact h
  | cons op rest ih =>
      simp only [execList, List.foldl_cons]
      exact ih _ (exec_InvC8 s op h)

/-! ### Claim theorems -/

/-- C1 (corrected): every failing `place_prediction` call leaves all
stored state (round totals, bet records, configuration) unchanged, and
every validation failure other than `Overflow` is raised before the escrow
transfer is invoked; the `Overflow` failure of the checked totals
addition, however, is raised only after the escrow transfer has already
been invoked (transfer at line 316, checked additions at lines 324/326). -/
theorem place_prediction_error_effects (s : State) (p : Player) (r d : Nat)
    (w : Int) (now : Nat) (e : Error)
    (he : (place_prediction s p r d w now).err = some e) :
    (place_prediction s p r d w now).newState = s ∧
    (e ≠ .Overflow → (place_prediction s p r d w now).trace = []) ∧
    (e = .Overflow → (place_prediction s p r d w now).trace =
      [.transfer (.player p) .contract w]) := by
  rcases place_prediction_cases s p r d w now with
    ⟨e2, hne, h1⟩ | h1 | ⟨rd2, rd2', h2, h3, h4, h5, h6, h1⟩
  · rw [h1] at he ⊢
    have he2 : e2 = e := by simpa [fail] using he
    subst he2
    exact ⟨rfl, fun _ => rfl, fun hov => absurd hov hne⟩
  · rw [h1] at he ⊢
    have he2 : Error.Overflow = e := by simpa using he
    subst he2
    exact ⟨rfl, fun hne2 => absurd rfl hne2, fun _ => rfl⟩
  · rw [h1] at he
    exact absurd he (by simp)

/-- Witness for C1's corrected theorem at a concrete reachable state. -/
theorem place_prediction_error_effects_witness :
    (place_prediction (execList init0 demoOverflowOps) 2 1 0 1 5).err =
      some .Overflow ∧
    ((place_prediction (execList init0 demoOverflowOps) 2 1 0 1 5).newState =
        execList init0 demoOverflowOps ∧
      (Error.Overflow ≠ .Overflow →
        (place_prediction (execList init0 demoOverflowOps) 2 1 0 1 5).trace = []) ∧
      (Error.Overflow = .Overflow →
        (place_prediction (execList init0 demoOverflowOps) 2 1 0 1 5).trace =
          [.transfer (.player 2) .contract 1])) :=
  ⟨by decide,
    place_prediction_error_effects (execList init0 demoOverflowOps) 2 1 0 1 5
      .Overflow (by decide)⟩

/-- C1 counterexample: at a concrete reachable state (Up total is
`i128::MAX`), a further 1-token Up wager makes `place_prediction` return
`Overflow`, yet the escrow transfer has been invoked before the error —
refuting that an erroring call invokes no funds transfer and that every
validation runs before any transfer. -/
theorem place_prediction_overflow_after_transfer_cex :
    (place_prediction (execList init0 demoOverflowOps) 2 1 0 1 5).err =
      some .Overflow ∧
    (place_prediction (execList init0 demoOverflowOps) 2 1 0 1 5).trace =
      [.transfer (.player 2) .contract 1] := by
  constructor <;> decide

/-- C10: on an initialized contract, `open_market` fails with
`InvalidCloseTime` iff the close time is not strictly in the future, with
`RoundAlreadyExists` iff (the close time is valid and) the round id is
taken, with `InvalidPrice` iff (both earlier checks pass and) the oracle
price is not strictly positive — in that order — and on success stores a
round with the oracle price as opening price, the given close time, zero
totals and `settled = false`. -/
theorem open_market_spec (s : State) (cfg : Config) (r a ct now : Nat)
    (price : Int) (hc : s.config = some cfg) :
    ((open_market s r a ct now price).err = some .InvalidCloseTime ↔
      ct ≤ now) ∧
    ((open_market s r a ct now price).err = some .RoundAlreadyExists ↔
      now < ct ∧ find? r s.rounds ≠ none) ∧
    ((open_market s r a ct now price).err = some .InvalidPrice ↔
      now < ct ∧ find? r s.rounds = none ∧ price ≤ 0) ∧
    ((open_market s r a ct now price).err = none ↔
      now < ct ∧ find? r s.rounds = none ∧ 0 < price) ∧
    ((open_market s r a ct now price).err = none →
      find? r (open_market s r a ct now price).newState.rounds =
        some ⟨a, price, 0, ct, 0, 0, false, 0, false, 0, 0⟩) := by
  unfold open_market
  rw [hc]
  dsimp only
  by_cases h1 : ct ≤ now
  · rw [if_pos h1]
    refine ⟨?_, ?_, ?_, ?_, ?_⟩ <;> simp [fail] <;> omega
  · rw [if_neg h1]
    by_cases h2 : (find? r s.rounds).isSome = true
    · rw [if_pos h2]
      have h2' : find? r s.rounds ≠ none := by
        simpa [Option.isSome_iff_ne_none] using h2
      refine ⟨?_, ?_, ?_, ?_, ?_⟩ <;>
        simp [fail, h2', Nat.not_le.mp h1]
    · rw [if_neg h2]
      have h2' : find? r s.rounds = none := by
        simpa [Option.not_isSome_iff_eq_none] using h2
      by_cases h3 : price ≤ 0
      · rw [if_pos h3]
        refine ⟨?_, ?_, ?_, ?_, ?_⟩ <;>
          simp [fail, h2', h3, Nat.not_le.mp h1]
      · rw [if_neg h3]
        refine ⟨?_, ?_, ?_, ?_, ?_⟩ <;>
          simp [fail, h2', Nat.not_le.mp h1, find?_store_self] <;> omega

/-- Witness for C10 at a concrete initialized state. -/
theorem open_market_spec_witness :
    (execList init0 demoOps).config = some ⟨10, 10000, 500⟩ ∧
    (((open_market (execList init0 demoOps) 2 8 20 11 42).err =
        some .InvalidCloseTime ↔ (20 : Nat) ≤ 11) ∧
      (((open_market (execList init0 demoOps) 2 8 20 11 42).err =
        some .RoundAlreadyExists ↔
        11 < 20 ∧ find? 2 (execList init0 demoOps).rounds ≠ none)) ∧
      (((open_market (execList init0 demoOps) 2 8 20 11 42).err =
        some .InvalidPrice ↔
        11 < 20 ∧ find? 2 (execList init0 demoOps).rounds = none ∧
          (42 : Int) ≤ 0)) ∧
      (((open_market (execList init0 demoOps) 2 8 20 11 42).err = none ↔
        11 < 20 ∧ find? 2 (execList init0 demoOps).rounds = none ∧
          (0 : Int) < 42)) ∧
      ((open_market (execList init0 demoOps) 2 8 20 11 42).err = none →
        find? 2 (open_market (execList init0 demoOps) 2 8 20 11 42).newState.rounds =
          some ⟨8, 42, 0, 20, 0, 0, false, 0, false, 0, 0⟩)) :=
  ⟨by decide,
    open_market_spec (execList init0 demoOps) ⟨10, 10000, 500⟩ 2 8 20 11 42
      (by decide)⟩

/-- C2: for every successful `settle_round`, the stored outcome is Up iff
the close price exceeds the open price, Down iff it is below, Flat iff
equal; and `is_push` holds iff the outcome is Flat, or the total pool is
zero, or either side's total is zero. -/
theorem settle_round_outcome_spec (s : State) (r now : Nat) (cp : Int)
    (rd rd' : RoundData)
    (hrd : find? r s.rounds = some rd)
    (hok : (settle_round s r now cp).err = none)
    (hrd' : find? r (settle_round s r now cp).newState.rounds = some rd') :
    (rd'.outcome = OUTCOME_UP ↔ rd.open_price < cp) ∧
    (rd'.outcome = OUTCOME_DOWN ↔ cp < rd.open_price) ∧
    (rd'.outcome = OUTCOME_FLAT ↔ cp = rd.open_price) ∧
    (rd'.is_push = true ↔
      (rd'.outcome = OUTCOME_FLAT ∨ rd.total_up + rd.total_down = 0 ∨
        rd.total_up = 0 ∨ rd.total_down = 0)) := by
  rcases settle_round_cases s r now cp with
    ⟨e, h1⟩ | ⟨cfg, round, tp, np, wt, hc2, hr2, hset2, hct2, ha2, hps2, h1⟩
  · rw [h1] at hok; exact absurd hok (by simp [fail])
  · rw [hrd] at hr2
    injection hr2 with he
    subst he
    rw [h1] at hrd'
    dsimp only at hrd'
    rw [find?_store_self] at hrd'
    injection hrd' with he'
    subst he'
    have htp : tp = rd.total_up + rd.total_down := checkedAdd_some ha2
    unfold settledRound outcomeOf isPushOf
    dsimp only
    subst htp
    rcases lt_trichotomy rd.open_price cp with h | h | h
    · rw [if_pos h]
      refine ⟨?_, ?_, ?_, ?_⟩ <;>
        simp [OUTCOME_UP, OUTCOME_DOWN, OUTCOME_FLAT] <;> omega
    · rw [if_neg (by omega), if_neg (by omega)]
      refine ⟨?_, ?_, ?_, ?_⟩ <;>
        simp [OUTCOME_UP, OUTCOME_DOWN, OUTCOME_FLAT] <;> omega
    · rw [if_neg (by omega), if_pos h]
      refine ⟨?_, ?_, ?_, ?_⟩ <;>
        simp [OUTCOME_UP, OUTCOME_DOWN, OUTCOME_FLAT] <;> omega

/-- Witness for C2 on the settled demonstration run. -/
theorem settle_round_outcome_spec_witness :
    find? 1 (execList init0 demoOps).rounds =
      some ⟨7, 50000, 0, 10, 300, 500, false, 0, false, 0, 0⟩ ∧
    (settle_round (execList init0 demoOps) 1 10 55000).err = none ∧
    (((⟨7, 50000, 55000, 10, 300, 500, true, 0, false, 760, 300⟩ :
        RoundData).outcome = OUTCOME_UP ↔ (50000 : Int) < 55000) ∧
      ((⟨7, 50000, 55000, 10, 300, 500, true, 0, false, 760, 300⟩ :
        RoundData).outcome = OUTCOME_DOWN ↔ (55000 : Int) < 50000) ∧
      ((⟨7, 50000, 55000, 10, 300, 500, true, 0, false, 760, 300⟩ :
        RoundData).outcome = OUTCOME_FLAT ↔ (55000 : Int) = 50000) ∧
      ((⟨7, 50000, 55000, 10, 300, 500, true, 0, false, 760, 300⟩ :
        RoundData).is_push = true ↔
        ((⟨7, 50000, 55000, 10, 300, 500, true, 0, false, 760, 300⟩ :
          RoundData).outcome = OUTCOME_FLAT ∨
          (300 : Int) + 500 = 0 ∨ (300 : Int) = 0 ∨ (500 : Int) = 0))) :=
  ⟨by decide, by decide,
    settle_round_outcome_spec (execList init0 demoOps) 1 10 55000
      ⟨7, 50000, 0, 10, 300, 500, false, 0, false, 0, 0⟩
      ⟨7, 50000, 55000, 10, 300, 500, true, 0, false, 760, 300⟩
      (by decide) (by decide) (by decide)⟩

/-- C3: for every successful `settle_round`, a pushed round stores zero
net pool and zero winning total; a decisive round stores
`net_pool = total_pool - floor(total_pool * house_edge_bps / 10000)` and
`winning_total` equal to the winning side's total (the nonnegativity
hypotheses reflect that stored totals and the configured edge are
nonnegative, under which Rust's truncating division is floor division). -/
theorem settle_round_pool_spec (s : State) (cfg : Config) (r now : Nat)
    (cp : Int) (rd rd' : RoundData)
    (hc : s.config = some cfg)
    (hup : 0 ≤ rd.total_up) (hdown : 0 ≤ rd.total_down)
    (hbps : 0 ≤ cfg.house_edge_bps)
    (hrd : find? r s.rounds = some rd)
    (hok : (settle_round s r now cp).err = none)
    (hrd' : find? r (settle_round s r now cp).newState.rounds = some rd') :
    (rd'.is_push = true → rd'.net_pool = 0 ∧ rd'.winning_total = 0) ∧
    (rd'.is_push = false →
      rd'.net_pool = (rd.total_up + rd.total_down) -
        ((rd.total_up + rd.total_down) * cfg.house_edge_bps) / 10000 ∧
      rd'.winning_total =
        (if rd'.outcome = OUTCOME_UP then rd.total_up else rd.total_down)) := by
  rcases settle_round_cases s r now cp with
    ⟨e, h1⟩ | ⟨cfg2, round, tp, np, wt, hc2, hr2, hset2, hct2, ha2, hps2, h1⟩
  · rw [h1] at hok; exact absurd hok (by simp [fail])
  · rw [hrd] at hr2
    injection hr2 with he
    subst he
    rw [hc] at hc2
    injection hc2 with hce
    subst hce
    rw [h1] at hrd'
    dsimp only at hrd'
    rw [find?_store_self] at hrd'
    injection hrd' with he'
    subst he'
    have htp : tp = rd.total_up + rd.total_down := checkedAdd_some ha2
    unfold settledRound
    dsimp only
    unfold poolSplit at hps2
    by_cases hip : isPushOf (outcomeOf rd.open_price cp) tp rd.total_up
        rd.total_down = true
    · rw [if_pos hip] at hps2
      injection hps2 with hpr
      injection hpr with hnp hwt
      rw [hip]
      exact ⟨fun _ => ⟨hnp.symm, hwt.symm⟩, fun hf => absurd hf (by simp)⟩
    · rw [if_neg hip] at hps2
      have hip' : isPushOf (outcomeOf rd.open_price cp) tp rd.total_up
          rd.total_down = false := by
        simpa [Bool.not_eq_true] using hip
      rw [hip']
      refine ⟨fun ht => absurd ht (by simp), fun _ => ?_⟩
      cases hm : checkedMul tp cfg.house_edge_bps with
      | none => rw [hm] at hps2; exact absurd hps2 (by simp)
      | some v =>
          rw [hm] at hps2
          have hv : v = tp * cfg.house_edge_bps := checkedMul_some hm
          rw [Option.some_bind] at hps2
          rw [checkedDiv_of_pos (by decide : (0:Int) < BASIS_POINTS_DIVISOR)]
            at hps2
          dsimp only at hps2
          cases hs2 : checkedSub tp (v.tdiv BASIS_POINTS_DIVISOR) with
          | none => rw [hs2] at hps2; exact absurd hps2 (by simp)
          | some net =>
              rw [hs2] at hps2
              injection hps2 with hpr
              injection hpr with hnp hwt
              have hnet : net = tp - v.tdiv BASIS_POINTS_DIVISOR :=
                checkedSub_some hs2
              have htd : v.tdiv BASIS_POINTS_DIVISOR =
                  ((rd.total_up + rd.total_down) * cfg.house_edge_bps) / 10000 := by
                rw [hv, htp]
                unfold BASIS_POINTS_DIVISOR
                exact Int.tdiv_eq_ediv (by positivity) (by norm_num)
              constructor
              · rw [← hnp, hnet, htd, htp]
              · rw [← hwt]
                by_cases ho : outcomeOf rd.open_price cp = OUTCOME_UP
                · rw [if_pos (by simpa using ho), if_pos ho]
                · rw [if_neg (by simpa using ho), if_neg ho]

/-- Witness for C3 on the settled demonstration run. -/
theorem settle_round_pool_spec_witness :
    (execList init0 demoOps).config = some ⟨10, 10000, 500⟩ ∧
    find? 1 (execList init0 demoOps).rounds =
      some ⟨7, 50000, 0, 10, 300, 500, false, 0, false, 0, 0⟩ ∧
    (settle_round (execList init0 demoOps) 1 10 55000).err = none ∧
    (((⟨7, 50000, 55000, 10, 300, 500, true, 0, false, 760, 300⟩ :
        RoundData).is_push = true → (760 : Int) = 0 ∧ (300 : Int) = 0) ∧
      ((⟨7, 50000, 55000, 10, 300, 500, true, 0, false, 760, 300⟩ :
        RoundData).is_push = false →
        (760 : Int) = (300 + 500) - ((300 + 500) * 500) / 10000 ∧
        (300 : Int) = (if (⟨7, 50000, 55000, 10, 300, 500, true, 0, false,
          760, 300⟩ : RoundData).outcome = OUTCOME_UP then 300 else 500))) := by
  refine ⟨by decide, by decide, by decide, ?_⟩
  have := settle_round_pool_spec (execList init0 demoOps) ⟨10, 10000, 500⟩
    1 10 55000 ⟨7, 50000, 0, 10, 300, 500, false, 0, false, 0, 0⟩
    ⟨7, 50000, 55000, 10, 300, 500, true, 0, false, 760, 300⟩
    (by decide) (by decide) (by decide) (by decide) (by decide) (by decide)
    (by decide)
  exact this

/-- C4 (corrected): for a claim on a settled round by a participant
holding an unclaimed bet (whose wager is positive, as every stored bet's
is): on a push the payout is exactly the original wager and the claim
succeeds; for a bet whose direction equals the outcome the payout is the
checked floored proportional share, and the claim fails with `NoPayout`
(paying nothing) exactly when that share is zero; a bet whose direction
differs from the outcome always fails with `NoPayout`.  `NoPayout` is thus
not equivalent to a losing direction: a winning bet with zero floored
share fails with it too. -/
theorem claim_payout_spec (s : State) (cfg : Config) (p : Player) (r : Nat)
    (round : RoundData) (bet : BetData)
    (hc : s.config = some cfg)
    (hr : find? r s.rounds = some round) (hset : round.settled = true)
    (hb : find? (r, p) s.bets = some bet) (hcl : bet.claimed = false)
    (hw : 0 < bet.wager) :
    (round.is_push = true →
      (claim s p r).err = none ∧
      (claim s p r).trace =
        [.writeBet (r, p) { bet with claimed := true },
          .transfer .contract (.player p) bet.wager]) ∧
    (round.is_push = false → bet.direction = round.outcome →
      ∀ pay, payoutOf round bet = some pay →
        (pay = 0 → (claim s p r).err = some .NoPayout ∧
          (claim s p r).trace = []) ∧
        (pay ≠ 0 → (claim s p r).err = none ∧
          (claim s p r).trace =
            [.writeBet (r, p) { bet with claimed := true },
              .transfer .contract (.player p) pay])) ∧
    (round.is_push = false → bet.direction ≠ round.outcome →
      (claim s p r).err = some .NoPayout ∧ (claim s p r).trace = []) := by
  unfold claim
  rw [hc, hr, hb]
  dsimp only
  rw [if_neg (by simp [hset])]
  rw [if_neg (by simp [hcl])]
  refine ⟨?_, ?_, ?_⟩
  · intro hpush
    have hpay : payoutOf round bet = some bet.wager := by
      unfold payoutOf
      rw [if_pos hpush]
    rw [hpay]
    dsimp only
    rw [if_neg (by omega)]
    exact ⟨rfl, rfl⟩
  · intro hpush hdir pay hpay
    rw [hpay]
    dsimp only
    by_cases hpz : pay = 0
    · rw [if_pos hpz]
      exact ⟨fun _ => ⟨rfl, rfl⟩, fun hne => absurd hpz hne⟩
    · rw [if_neg hpz]
      exact ⟨fun hz => absurd hz hpz, fun _ => ⟨rfl, rfl⟩⟩
  · intro hpush hdir
    have hpay : payoutOf round bet = some 0 := by
      unfold payoutOf
      rw [if_neg (by simp [hpush]), if_neg (by simp [hdir])]
    rw [hpay]
    dsimp only
    rw [if_pos rfl]
    exact ⟨rfl, rfl⟩

/-- Witness for C4's corrected theorem on the settled demonstration run
(player 1 holds the winning unclaimed bet). -/
theorem claim_payout_spec_witness :
    (execList init0 demoSettleOps).config = some ⟨10, 10000, 500⟩ ∧
    find? 1 (execList init0 demoSettleOps).rounds =
      some ⟨7, 50000, 55000, 10, 300, 500, true, 0, false, 760, 300⟩ ∧
    find? (1, 1) (execList init0 demoSettleOps).bets =
      some ⟨0, 300, false⟩ ∧
    (((⟨7, 50000, 55000, 10, 300, 500, true, 0, false, 760, 300⟩ :
        RoundData).is_push = true →
      (claim (execList init0 demoSettleOps) 1 1).err = none ∧
      (claim (execList init0 demoSettleOps) 1 1).trace =
        [.writeBet (1, 1) ⟨0, 300, true⟩,
          .transfer .contract (.player 1) 300]) ∧
      ((⟨7, 50000, 55000, 10, 300, 500, true, 0, false, 760, 300⟩ :
        RoundData).is_push = false →
        (⟨0, 300, false⟩ : BetData).direction =
          (⟨7, 50000, 55000, 10, 300, 500, true, 0, false, 760, 300⟩ :
            RoundData).outcome →
        ∀ pay, payoutOf
            ⟨7, 50000, 55000, 10, 300, 500, true, 0, false, 760, 300⟩
            ⟨0, 300, false⟩ = some pay →
          (pay = 0 → (claim (execList init0 demoSettleOps) 1 1).err =
              some .NoPayout ∧
            (claim (execList init0 demoSettleOps) 1 1).trace = []) ∧
          (pay ≠ 0 → (claim (execList init0 demoSettleOps) 1 1).err = none ∧
            (claim (execList init0 demoSettleOps) 1 1).trace =
              [.writeBet (1, 1) ⟨0, 300, true⟩,
                .transfer .contract (.player 1) pay])) ∧
      ((⟨7, 50000, 55000, 10, 300, 500, true, 0, false, 760, 300⟩ :
        RoundData).is_push = false →
        (⟨0, 300, false⟩ : BetData).direction ≠
          (⟨7, 50000, 55000, 10, 300, 500, true, 0, false, 760, 300⟩ :
            RoundData).outcome →
        (claim (execList init0 demoSettleOps) 1 1).err = some .NoPayout ∧
        (claim (execList init0 demoSettleOps) 1 1).trace = [])) :=
  ⟨by decide, by decide, by decide,
    claim_payout_spec (execList init0 demoSettleOps) ⟨10, 10000, 500⟩ 1 1
      ⟨7, 50000, 55000, 10, 300, 500, true, 0, false, 760, 300⟩
      ⟨0, 300, false⟩ (by decide) (by decide) (by decide) (by decide)
      (by decide) (by decide)⟩

/-- C4 counterexample: on a concrete reachable settled round with a 100%
house edge, player 1's bet direction (Up, 0) equals the stored outcome
(Up, 0), the round is not a push and the bet is unclaimed, yet `claim`
fails with `NoPayout` — refuting that `claim` fails with `NoPayout`
exactly when the bet's direction differs from the outcome. -/
theorem claim_no_payout_winner_cex :
    find? 1 (execList init0 demoZeroShareOps).rounds =
      some ⟨7, 100, 200, 10, 100, 100, true, 0, false, 0, 100⟩ ∧
    find? (1, 1) (execList init0 demoZeroShareOps).bets =
      some ⟨0, 100, false⟩ ∧
    (⟨0, 100, false⟩ : BetData).direction =
      (⟨7, 100, 200, 10, 100, 100, true, 0, false, 0, 100⟩ :
        RoundData).outcome ∧
    (claim (execList init0 demoZeroShareOps) 1 1).err = some .NoPayout := by
  refine ⟨?_, ?_, ?_, ?_⟩ <;> decide

/-- C5: for a settled non-push round, a bet on the winning side whose
floored share of the net pool is zero fails `claim` with `NoPayout`,
paying nothing and changing nothing, and its claimed flag is never set by
any later sequence of invocations. -/
theorem claim_winner_zero_share (s : State) (cfg : Config) (p : Player)
    (r : Nat) (rd : RoundData) (b : BetData)
    (hc : s.config = some cfg)
    (hrd : find? r s.rounds = some rd) (hset : rd.settled = true)
    (hpush : rd.is_push = false)
    (hb : find? (r, p) s.bets = some b) (hcl : b.claimed = false)
    (hdir : b.direction = rd.outcome)
    (hnp : 0 ≤ rd.net_pool) (hw : 0 < b.wager)
    (hwt : 0 < rd.winning_total) (hwtmax : rd.winning_total ≤ I128_MAX)
    (hshare : winShare rd.net_pool b.wager rd.winning_total = 0) :
    (claim s p r).err = some .NoPayout ∧
    (claim s p r).newState = s ∧ (claim s p r).trace = [] ∧
    ∀ ops, find? (r, p) (execList s ops).bets = some b := by
  have hpay : payoutOf rd b = some 0 :=
    payoutOf_eq_zero rd b hpush hdir hnp hw hwt hwtmax hshare
  have hfail := claim_no_payout s cfg p r rd b hc hrd hset hb hcl hpay
  refine ⟨by rw [hfail]; rfl, by rw [hfail]; rfl, by rw [hfail]; rfl,
    fun ops => (execList_zero_share_bet s ops r p rd b hset hcl hpay hrd hb).2⟩

/-- Witness for C5 on the 100%-edge run: player 1's winning bet has
floored share 0, the claim fails with `NoPayout`, and the bet record (with
`claimed = false`) survives a further settle/claim attempt unchanged. -/
theorem claim_winner_zero_share_witness :
    winShare 0 100 100 = 0 ∧
    ((claim (execList init0 demoZeroShareOps) 1 1).err = some .NoPayout ∧
      (claim (execList init0 demoZeroShareOps) 1 1).newState =
        execList init0 demoZeroShareOps ∧
      (claim (execList init0 demoZeroShareOps) 1 1).trace = [] ∧
      ∀ ops, find? (1, 1) (execList (execList init0 demoZeroShareOps) ops).bets =
        some ⟨0, 100, false⟩) :=
  ⟨by decide,
    claim_winner_zero_share (execList init0 demoZeroShareOps) ⟨1, 10000, 10000⟩
      1 1 ⟨7, 100, 200, 10, 100, 100, true, 0, false, 0, 100⟩ ⟨0, 100, false⟩
      (by decide) (by decide) (by decide) (by decide) (by decide) (by decide)
      (by decide) (by decide) (by decide) (by decide) (by decide) (by decide)⟩

/-- C6: a successful `claim` writes the bet with `claimed = true` to
storage before invoking the payout transfer (the trace is exactly that
write followed by the transfer), and after it every subsequent `claim` by
that participant on that round — after any sequence of further
invocations — fails with `AlreadyClaimed`, transfers nothing and changes
nothing. -/
theorem claim_idempotent_guard (s : State) (p : Player) (r : Nat)
    (hok : (claim s p r).err = none) :
    (∃ b' pay, b'.claimed = true ∧
      (claim s p r).trace =
        [.writeBet (r, p) b', .transfer .contract (.player p) pay]) ∧
    ∀ ops,
      (claim (execList (claim s p r).newState ops) p r).err =
        some .AlreadyClaimed ∧
      (claim (execList (claim s p r).newState ops) p r).trace = [] ∧
      (claim (execList (claim s p r).newState ops) p r).newState =
        execList (claim s p r).newState ops := by
  rcases claim_cases s p r with
    ⟨e, h1⟩ | ⟨cfg, round, bet, pay, hc, hr, hset, hb, hcl, hp, hpz, h1⟩
  · rw [h1] at hok; exact absurd hok (by simp [fail])
  · constructor
    · exact ⟨{ bet with claimed := true }, pay, rfl, by rw [h1]⟩
    · intro ops
      have hc' : (claim s p r).newState.config = some cfg := by
        rw [h1]; exact hc
      have hr' : find? r (claim s p r).newState.rounds = some round := by
        rw [h1]; exact hr
      have hb' : find? (r, p) (claim s p r).newState.bets =
          some ({ bet with claimed := true }) := by
        rw [h1]; exact find?_store_self _ _ _
      have hc2 := execList_config _ ops cfg hc'
      have hr2 := execList_settled_round _ ops r round hset hr'
      have hb2 := execList_claimed_bet _ ops (r, p)
        ({ bet with claimed := true }) rfl hb'
      have hfail := claim_already_claimed _ cfg p r round
        ({ bet with claimed := true }) hc2 hr2 hset hb2 rfl
      exact ⟨by rw [hfail]; rfl, by rw [hfail]; rfl, by rw [hfail]; rfl⟩

/-- Witness for C6 on the settled demonstration run: player 1's winning
claim succeeds; afterwards (including after player 2's failed claim
attempt) a repeated claim always fails with `AlreadyClaimed`. -/
theorem claim_idempotent_guard_witness :
    (claim (execList init0 demoSettleOps) 1 1).err = none ∧
    ((∃ b' pay, b'.claimed = true ∧
      (claim (execList init0 demoSettleOps) 1 1).trace =
        [.writeBet (1, 1) b', .transfer .contract (.player 1) pay]) ∧
    ∀ ops,
      (claim (execList (claim (execList init0 demoSettleOps) 1 1).newState
        ops) 1 1).err = some .AlreadyClaimed ∧
      (claim (execList (claim (execList init0 demoSettleOps) 1 1).newState
        ops) 1 1).trace = [] ∧
      (claim (execList (claim (execList init0 demoSettleOps) 1 1).newState
        ops) 1 1).newState =
        execList (claim (execList init0 demoSettleOps) 1 1).newState ops) :=
  ⟨by decide, claim_idempotent_guard (execList init0 demoSettleOps) 1 1
    (by decide)⟩

/-- C7: for every successfully settled non-push round with a house edge in
[0, 10000] basis points (and the nonnegative stored totals every reachable
round has), the stored net pool equals the fee-reduced total pool, each
winning bet's floored share of it is nonnegative, and for any finite
collection of positive winning wagers summing to the winning total the sum
of their floored shares never exceeds the net pool. -/
theorem settle_round_no_overpayment (s : State) (cfg : Config) (r now : Nat)
    (cp : Int) (rd rd' : RoundData) (ws : List Int)
    (hc : s.config = some cfg)
    (hup : 0 ≤ rd.total_up) (hdown : 0 ≤ rd.total_down)
    (hbps0 : 0 ≤ cfg.house_edge_bps) (hbps1 : cfg.house_edge_bps ≤ 10000)
    (hrd : find? r s.rounds = some rd)
    (hok : (settle_round s r now cp).err = none)
    (hrd' : find? r (settle_round s r now cp).newState.rounds = some rd')
    (hpush : rd'.is_push = false)
    (hws : ∀ w ∈ ws, 0 < w) (hsum : ws.sum = rd'.winning_total) :
    rd'.net_pool = (rd.total_up + rd.total_down) -
      ((rd.total_up + rd.total_down) * cfg.house_edge_bps) / 10000 ∧
    (∀ w ∈ ws, 0 ≤ winShare rd'.net_pool w rd'.winning_total) ∧
    (ws.map (fun w => winShare rd'.net_pool w rd'.winning_total)).sum ≤
      rd'.net_pool := by
  rcases settle_round_cases s r now cp with
    ⟨e, h1⟩ | ⟨cfg2, round, tp, np, wt, hc2, hr2, hset2, hct2, ha2, hps2, h1⟩
  · rw [h1] at hok; exact absurd hok (by simp [fail])
  · rw [hrd] at hr2
    injection hr2 with he
    subst he
    rw [hc] at hc2
    injection hc2 with hce
    subst hce
    rw [h1] at hrd'
    dsimp only at hrd'
    rw [find?_store_self] at hrd'
    injection hrd' with he'
    subst he'
    have htp : tp = rd.total_up + rd.total_down := checkedAdd_some ha2
    have htp0 : 0 ≤ tp := by omega
    have hip : isPushOf (outcomeOf rd.open_price cp) tp rd.total_up
        rd.total_down = false := by
      have := hpush
      unfold settledRound at this
      exact this
    unfold settledRound
    dsimp only
    unfold poolSplit at hps2
    rw [if_neg (by simp [hip])] at hps2
    cases hm : checkedMul tp cfg.house_edge_bps with
    | none => rw [hm] at hps2; exact absurd hps2 (by simp)
    | some v =>
        rw [hm, Option.some_bind,
          checkedDiv_of_pos (by decide : (0:Int) < BASIS_POINTS_DIVISOR)]
          at hps2
        dsimp only at hps2
        cases hs2 : checkedSub tp (v.tdiv BASIS_POINTS_DIVISOR) with
        | none => rw [hs2] at hps2; exact absurd hps2 (by simp)
        | some net =>
            rw [hs2] at hps2
            injection hps2 with hpr
            injection hpr with hnp hwt
            have hv : v = tp * cfg.house_edge_bps := checkedMul_some hm
            have hnet : net = tp - v.tdiv BASIS_POINTS_DIVISOR :=
              checkedSub_some hs2
            have htd : v.tdiv BASIS_POINTS_DIVISOR = (tp * cfg.house_edge_bps) / 10000 := by
              rw [hv]
              unfold BASIS_POINTS_DIVISOR
              exact Int.tdiv_eq_ediv (by positivity) (by norm_num)
            have hfee_le : (tp * cfg.house_edge_bps) / 10000 ≤ tp := by
              have h1' : tp * cfg.house_edge_bps ≤ tp * 10000 :=
                mul_le_mul_of_nonneg_left hbps1 htp0
              calc (tp * cfg.house_edge_bps) / 10000
                  ≤ (tp * 10000) / 10000 :=
                    Int.ediv_le_ediv (by norm_num) h1'
                _ = tp := Int.mul_ediv_cancel tp (by norm_num)
            have hnp0 : 0 ≤ np := by
              rw [← hnp, hnet, htd]
              omega
            -- the winning total is a side total, positive because the
            -- round is not a push
            have hwt0 : 0 < wt := by
              unfold isPushOf at hip
              simp only [Bool.or_eq_false_iff, beq_eq_false_iff_ne, ne_eq]
                at hip
              rw [← hwt]
              by_cases ho : (outcomeOf rd.open_price cp == OUTCOME_UP) = true
              · rw [if_pos ho]
                rcases hip with ⟨⟨⟨-, -⟩, h3⟩, -⟩
                omega
              · rw [if_neg ho]
                rcases hip with ⟨-, h4⟩
                omega
            refine ⟨?_, ?_, ?_⟩
            · rw [← hnp, hnet, htd, htp]
            · intro w hw
              exact winShare_nonneg hnp0 (hws w hw).le hwt0
            · have hle := sum_winShare_le np wt hnp0 hwt0 ws
                (fun w hw => (hws w hw).le)
              rw [hsum] at hle
              calc (ws.map (fun w => winShare np w wt)).sum
                  ≤ np * wt / wt := by
                    have : (settledRound rd cp tp np wt).winning_total = wt := rfl
                    rw [this] at hle
                    exact hle
                _ = np := Int.mul_ediv_cancel np (by omega)

/-- Witness for C7 on the settled demonstration run: the single winning
wager 300 receives floored share 760 ≤ net pool 760. -/
theorem settle_round_no_overpayment_witness :
    (settle_round (execList init0 demoOps) 1 10 55000).err = none ∧
    (∀ w ∈ [(300 : Int)], 0 < w) ∧
    ([(300 : Int)].sum =
      (⟨7, 50000, 55000, 10, 300, 500, true, 0, false, 760, 300⟩ :
        RoundData).winning_total) ∧
    ((760 : Int) = (300 + 500) - ((300 + 500) * 500) / 10000 ∧
      (∀ w ∈ [(300 : Int)], 0 ≤ winShare 760 w 300) ∧
      ([(300 : Int)].map (fun w => winShare 760 w 300)).sum ≤ 760) :=
  ⟨by decide, by decide, by decide,
    settle_round_no_overpayment (execList init0 demoOps) ⟨10, 10000, 500⟩
      1 10 55000 ⟨7, 50000, 0, 10, 300, 500, false, 0, false, 0, 0⟩
      ⟨7, 50000, 55000, 10, 300, 500, true, 0, false, 760, 300⟩ [300]
      (by decide) (by decide) (by decide) (by decide) (by decide) (by decide)
      (by decide) (by decide) (by decide) (by decide) (by decide)⟩

/-- C8: in every reachable state, for every round not yet settled, the
stored totals `total_up + total_down` equal the sum of the wagers of all
bets stored for that round. -/
theorem round_totals_eq_sum_of_wagers (s : State) (hs : reachable s)
    (r : Nat) (rd : RoundData) (hrd : find? r s.rounds = some rd)
    (hset : rd.settled = false) :
    rd.total_up + rd.total_down = sumWagers r s.bets := by
  obtain ⟨ops, hops⟩ := hs
  have hinv := execList_InvC8 init0 ops InvC8_init0
  rw [hops] at hinv
  exact hinv.2.2 r rd hrd

/-- Witness for C8 on the demonstration run before settlement:
300 + 500 equals the sum of the two stored wagers of round 1. -/
theorem round_totals_eq_sum_of_wagers_witness :
    find? 1 (execList init0 demoOps).rounds =
      some ⟨7, 50000, 0, 10, 300, 500, false, 0, false, 0, 0⟩ ∧
    ((300 : Int) + 500 = sumWagers 1 (execList init0 demoOps).bets) :=
  ⟨by decide,
    round_totals_eq_sum_of_wagers (execList init0 demoOps) ⟨demoOps, rfl⟩
      1 ⟨7, 50000, 0, 10, 300, 500, false, 0, false, 0, 0⟩ (by decide)
      (by decide)⟩

/-- C9: a successful `settle_round` stores the round with `settled = true`
while leaving its asset, opening price, close time, side totals — and
every bet record — unchanged; the stored round is then permanently frozen:
after any further sequence of invocations it is still stored unchanged
(so outcome, push flag, pools and totals never change again), a repeated
`settle_round` fails with `AlreadySettled` without touching storage, and
`place_prediction` on it (with otherwise valid arguments) fails with
`AlreadySettled`. -/
theorem settle_round_freezes (s : State) (r now : Nat) (cp : Int)
    (rd : RoundData)
    (hrd : find? r s.rounds = some rd)
    (hok : (settle_round s r now cp).err = none) :
    ∃ rd', find? r (settle_round s r now cp).newState.rounds = some rd' ∧
      rd'.settled = true ∧ rd'.asset = rd.asset ∧
      rd'.open_price = rd.open_price ∧ rd'.close_time = rd.close_time ∧
      rd'.total_up = rd.total_up ∧ rd'.total_down = rd.total_down ∧
      (settle_round s r now cp).newState.bets = s.bets ∧
      (∀ ops,
        find? r (execList (settle_round s r now cp).newState ops).rounds =
          some rd') ∧
      (∀ ops now2 cp2,
        (settle_round (execList (settle_round s r now cp).newState ops)
          r now2 cp2).err = some .AlreadySettled ∧
        (settle_round (execList (settle_round s r now cp).newState ops)
          r now2 cp2).newState =
          execList (settle_round s r now cp).newState ops) ∧
      (∀ ops p d (w : Int) now2 cfg2,
        (execList (settle_round s r now cp).newState ops).config =
          some cfg2 →
        (d = DIRECTION_UP ∨ d = DIRECTION_DOWN) → 0 < w →
        cfg2.min_wager ≤ w → w ≤ cfg2.max_wager →
        (place_prediction (execList (settle_round s r now cp).newState ops)
          p r d w now2).err = some .AlreadySettled) := by
  rcases settle_round_cases s r now cp with
    ⟨e, h1⟩ | ⟨cfg, round, tp, np, wt, hc2, hr2, hset2, hct2, ha2, hps2, h1⟩
  · rw [h1] at hok; exact absurd hok (by simp [fail])
  · rw [hrd] at hr2
    injection hr2 with he
    subst he
    have hfound : find? r (settle_round s r now cp).newState.rounds =
        some (settledRound rd cp tp np wt) := by
      rw [h1]
      exact find?_store_self _ _ _
    have hconf : (settle_round s r now cp).newState.config = some cfg := by
      rw [h1]
      exact hc2
    refine ⟨settledRound rd cp tp np wt, hfound, rfl, rfl, rfl, rfl, rfl,
      rfl, by rw [h1], ?_, ?_, ?_⟩
    · intro ops
      exact execList_settled_round _ ops r (settledRound rd cp tp np wt)
        rfl hfound
    · intro ops now2 cp2
      have hc3 := execList_config _ ops cfg hconf
      have hr3 := execList_settled_round _ ops r
        (settledRound rd cp tp np wt) rfl hfound
      have hfail := settle_already_settled _ cfg r now2 cp2
        (settledRound rd cp tp np wt) hc3 hr3 rfl
      exact ⟨by rw [hfail]; rfl, by rw [hfail]; rfl⟩
    · intro ops p d w now2 cfg2 hc4 hd hw hmin hmax
      have hr3 := execList_settled_round _ ops r
        (settledRound rd cp tp np wt) rfl hfound
      have hfail := place_already_settled _ cfg2 p r d w now2
        (settledRound rd cp tp np wt) hc4 hd hw hmin hmax hr3 rfl
      rw [hfail]
      rfl

/-- Witness for C9 on the demonstration run, settling round 1. -/
theorem settle_round_freezes_witness :
    find? 1 (execList init0 demoOps).rounds =
      some ⟨7, 50000, 0, 10, 300, 500, false, 0, false, 0, 0⟩ ∧
    (settle_round (execList init0 demoOps) 1 10 55000).err = none ∧
    (∃ rd', find? 1
        (settle_round (execList init0 demoOps) 1 10 55000).newState.rounds =
        some rd' ∧
      rd'.settled = true ∧ rd'.asset = 7 ∧
      rd'.open_price = 50000 ∧ rd'.close_time = 10 ∧
      rd'.total_up = 300 ∧ rd'.total_down = 500 ∧
      (settle_round (execList init0 demoOps) 1 10 55000).newState.bets =
        (execList init0 demoOps).bets ∧
      (∀ ops, find? 1 (execList
          (settle_round (execList init0 demoOps) 1 10 55000).newState
          ops).rounds = some rd') ∧
      (∀ ops now2 cp2,
        (settle_round (execList
          (settle_round (execList init0 demoOps) 1 10 55000).newState ops)
          1 now2 cp2).err = some .AlreadySettled ∧
        (settle_round (execList
          (settle_round (execList init0 demoOps) 1 10 55000).newState ops)
          1 now2 cp2).newState =
          execList
            (settle_round (execList init0 demoOps) 1 10 55000).newState
            ops) ∧
      (∀ ops p d (w : Int) now2 cfg2,
        (execList
          (settle_round (execList init0 demoOps) 1 10 55000).newState
          ops).config = some cfg2 →
        (d = DIRECTION_UP ∨ d = DIRECTION_DOWN) → 0 < w →
        cfg2.min_wager ≤ w → w ≤ cfg2.max_wager →
        (place_prediction (execList
          (settle_round (execList init0 demoOps) 1 10 55000).newState ops)
          p 1 d w now2).err = some .AlreadySettled)) := by
  refine ⟨by decide, by decide, ?_⟩
  have h := settle_round_freezes (execList init0 demoOps) 1 10 55000
    ⟨7, 50000, 0, 10, 300, 500, false, 0, false, 0, 0⟩ (by decide) (by decide)
  obtain ⟨rd', h1, h2, h3, h4, h5, h6, h7, h8, h9, h10, h11⟩ := h
  exact ⟨rd', h1, h2, h3, h4, h5, h6, h7, h8, h9, h10, h11⟩

end PricePrediction
